import Mathlib

/- Verification of the faraday declarative data-mapping layer
   (schema registry, link resolution, per-instance link caches,
   lazy sequences, linked-item managers).

   The Python source is embedded shallowly: dictionaries become
   association lists processed in insertion order, instances become
   records of their data dictionary and their link-cache slots, and the
   storage collaborator becomes an explicit lookup function whose
   invocations are counted.  Modules of the repository that are not
   present under src (structs.py, loading.py, table.py) are modelled
   from the specification where a claim depends on them; every such
   definition carries a doc comment saying so. -/

namespace Faraday

/-- Association list lookup: the value of the first entry with the given
key, as a Python dictionary read (dictionaries hold one entry per key). -/
def alookup {α : Type} (m : List (String × α)) (k : String) : Option α :=
  match m with
  | [] => none
  | (k', v) :: rest => if k' = k then some v else alookup rest k

/-- Association list write, Python dictionary assignment semantics:
overwrite the entry in place when the key is present, append otherwise. -/
def aset {α : Type} (m : List (String × α)) (k : String) (v : α) :
    List (String × α) :=
  match m with
  | [] => [(k, v)]
  | (k', v') :: rest =>
      if k' = k then (k, v) :: rest else (k', v') :: aset rest k v

/-- Association list delete, Python del/pop semantics: every entry under
the key is removed (a dictionary holds at most one). -/
def aerase {α : Type} (m : List (String × α)) (k : String) :
    List (String × α) :=
  match m with
  | [] => []
  | (k', v) :: rest =>
      if k' = k then aerase rest k else (k', v) :: aerase rest k

/-- Look up each key in order, as tuple(instance[key] for key in db_key):
none as soon as one key is missing (the KeyError path). -/
def lookupAll {α : Type} (m : List (String × α)) :
    List String → Option (List α)
  | [] => some []
  | k :: ks =>
      match alookup m k with
      | none => none
      | some v =>
          match lookupAll m ks with
          | none => none
          | some vs => some (v :: vs)

/-- Attribute values of the store, as the item layer sees them after
decoding (the TypeCodec collaborator is treated as the identity). -/
inductive Value where
  | null
  | num (n : Int)
  | str (s : String)
deriving DecidableEq, Repr

/-- Python repr of a string, as the {!r} format conversion renders it. -/
def pyRepr (s : String) : String :=
  "'" ++ s ++ "'"

/-- Python repr of a Value. -/
def pyReprValue : Value → String
  | .null => "None"
  | .num n => toString n
  | .str s => pyRepr s

/- ------------------------------------------------------------------
   LazySequence (structs.py).
   ------------------------------------------------------------------ -/

/-- Modelled from the spec: faraday/structs.py is not among the source
files under src (only its tests are).  A lazy sequence wraps the ordered
cache of elements already pulled (results) and the not-yet-exhausted
remainder of the source iterator, which becomes none once a pull hits
the end of the source. -/
structure LazySeq (α : Type) where
  results : List α
  iterable : Option (List α)
deriving DecidableEq, Repr

/-- The logical contents of a lazy sequence: the cached results followed
by the remaining elements of the source. -/
def logicalSeq {α : Type} (s : LazySeq α) : List α :=
  s.results ++ s.iterable.getD []

/-- Modelled from the spec: pull from the source until the cache holds at
least n elements or the source is exhausted; pulling past the end of the
source sets the iterable slot to none. -/
def consumeTo {α : Type} (n : Nat) (s : LazySeq α) : LazySeq α :=
  if n ≤ s.results.length then s
  else
    match s.iterable with
    | none => s
    | some it =>
        let need := n - s.results.length
        if it.length < need then ⟨s.results ++ it, none⟩
        else ⟨s.results ++ it.take need, some (it.drop need)⟩

/-- Modelled from the spec: pull the whole source into the cache; the
iterable slot becomes none and results are the full sequence. -/
def consumeAll {α : Type} (s : LazySeq α) : LazySeq α :=
  ⟨s.results ++ s.iterable.getD [], none⟩

/-- Modelled from the spec: pull one element at a time until the
predicate matches, short-circuiting on the first match (membership test
and index()); already cached matches pull nothing. -/
def consumeUntil {α : Type} (p : α → Bool) (s : LazySeq α) : LazySeq α :=
  if s.results.any p then s
  else
    match s.iterable with
    | none => s
    | some it =>
        let pre := it.takeWhile (fun a => !(p a))
        match it.dropWhile (fun a => !(p a)) with
        | [] => ⟨s.results ++ pre, none⟩
        | x :: rest => ⟨s.results ++ pre ++ [x], some rest⟩

/-- The read operations of the lazy-sequence interface, by how far each
advances the source. -/
inductive ReadOp (α : Type) where
  | indexOp (i : Nat)
  | boolOp
  | lenOp
  | countOp (x : α)
  | containsOp (x : α)

/-- The state effect of one read operation on a lazy sequence. -/
def applyOp {α : Type} [DecidableEq α] : ReadOp α → LazySeq α → LazySeq α
  | .indexOp i, s => consumeTo (i + 1) s
  | .boolOp, s => consumeTo 1 s
  | .lenOp, s => consumeAll s
  | .countOp _, s => consumeAll s
  | .containsOp x, s => consumeUntil (fun a => decide (a = x)) s

/-- Modelled from the spec: concatenation with the lazy sequence on the
left returns the pair of the untouched left operand and a new lazy
sequence whose source chains the left sequence's replay with the right
operand; nothing is materialized into the new cache. -/
def ladd {α : Type} (s : LazySeq α) (xs : List α) :
    LazySeq α × LazySeq α :=
  (s, ⟨[], some (logicalSeq s ++ xs)⟩)

/-- Modelled from the spec: concatenation with the lazy sequence on the
right forces it fully and returns a concrete list of the left operand's
type, together with the exhausted sequence. -/
def radd {α : Type} (xs : List α) (s : LazySeq α) :
    List α × LazySeq α :=
  (xs ++ logicalSeq s, consumeAll s)

/- ------------------------------------------------------------------
   Primary-key schema assembly (item.py, DeclarativeItemBase.__new__).
   ------------------------------------------------------------------ -/

/-- Which internal field a declared key field makes: HashKeyField,
RangeKeyField, or a plain ItemField whose internal class is None. -/
inductive FieldKind where
  | hash
  | range
  | plain
deriving DecidableEq, Repr

/-- One declared key field: its attribute name and kind, in the item
type's declaration order. -/
structure FieldDecl where
  name : String
  kind : FieldKind
deriving DecidableEq, Repr

/-- An entry of the assembled primary-key schema. -/
inductive SchemaEntry where
  | hashKey (name : String)
  | rangeKey (name : String)
deriving DecidableEq, Repr

/-- ItemField.make_internal: the internal HashKey or RangeKey carrying
the field's name, or none for a plain field. -/
def makeInternal (f : FieldDecl) : Option SchemaEntry :=
  match f.kind with
  | .hash => some (.hashKey f.name)
  | .range => some (.rangeKey f.name)
  | .plain => none

/-- The body of the schema-assembly loop of DeclarativeItemBase.__new__:
a HashKey is inserted at position 0 of the schema, a RangeKey is
appended, other fields contribute nothing. -/
def schemaStep (schema : List SchemaEntry) (f : FieldDecl) : List SchemaEntry :=
  match makeInternal f with
  | some (.hashKey n) => .hashKey n :: schema
  | some (.rangeKey n) => schema ++ [.rangeKey n]
  | none => schema

/-- The schema-assembly loop of DeclarativeItemBase.__new__, over the
declared key fields in order. -/
def assembleSchema (keys : List FieldDecl) : List SchemaEntry :=
  keys.foldl schemaStep []

/-- The names of the declared hash-key fields, in declaration order. -/
def hashNames (keys : List FieldDecl) : List String :=
  keys.filterMap
    (fun f => match f.kind with | .hash => some f.name | _ => none)

/-- The names of the declared range-key fields, in declaration order. -/
def rangeNames (keys : List FieldDecl) : List String :=
  keys.filterMap
    (fun f => match f.kind with | .range => some f.name | _ => none)

/-- Modelled from the spec: faraday/table.py is not among the source
files under src.  Constructing the item's Table at declaration time
validates that the primary-key schema is exactly [HashKey] or
[HashKey, RangeKey]; any other shape is a fatal declaration error. -/
def validSchema : List SchemaEntry → Bool
  | [.hashKey _] => true
  | [.hashKey _, .rangeKey _] => true
  | _ => false

/-- Declaring a concrete item type: assemble the primary-key schema
from the declared key fields (item.py) and construct the Table with it
(validation modelled from the spec, table.py being absent from src). -/
def declareTable (keys : List FieldDecl) : Except String (List SchemaEntry) :=
  let schema := assembleSchema keys
  if validSchema schema then .ok schema
  else .error "Table schema must be [HashKey] or [HashKey, RangeKey]"

/- ------------------------------------------------------------------
   Link fields and per-instance link caches (fields.py, item.py).
   ------------------------------------------------------------------ -/

/-- A related item, as held in a link cache slot or returned by the
target type's manager, carried by its primary-key value tuple. -/
structure TargetItem where
  pk : List Value
deriving DecidableEq, Repr

/-- An item link field: the names of the owning item's own fields whose
values embed the target's primary key (ItemLinkField.db_key). -/
structure LinkField where
  dbKey : List String
deriving DecidableEq, Repr

/-- An item instance: its field-value dictionary and its per-link cache
slots (a slot is set exactly when an entry under the link's name is
present, matching the cache attribute's presence on the instance). -/
structure Inst where
  data : List (String × Value)
  caches : List (String × TargetItem)
deriving DecidableEq, Repr

/-- ItemMeta.set_properties: for every link, each of its db_key field
names is mapped to the link's name; iteration follows the link table's
order, so a later link overwrites an earlier link sharing a field. -/
def linkKeys (links : List (String × LinkField)) : List (String × String) :=
  links.foldl
    (fun acc lk => lk.2.dbKey.foldl (fun acc2 k => aset acc2 k lk.1) acc)
    []

/-- The last link, in declaration order, whose embedded key fields
contain the given field name (what link_keys records as the field's
owning link). -/
def lastOwner : List (String × LinkField) → String → Option String
  | [], _ => none
  | p :: rest, key =>
      match lastOwner rest key with
      | some l => some l
      | none => if key ∈ p.2.dbKey then some p.1 else none

/-- The message of the AttributeError raised inside
Item._clear_link_cache: the method fetches the LinkFieldProperty
descriptor from the class and calls cache_clear on it, but the
descriptor defines only cache_get and cache_set (the only cache_clear
in fields.py is ItemLinkField's, a classmethod of the field, not of the
descriptor). -/
def attrErrMsg : String :=
  "'LinkFieldProperty' object has no attribute 'cache_clear'"

/-- Item._clear_link_cache: when the schema's link_keys table does not
own the field, the KeyError is swallowed and nothing happens; when it
does, getattr(type(self), link_name) yields the LinkFieldProperty
descriptor and the call to its nonexistent cache_clear raises
AttributeError, touching no cache slot. -/
def clearLinkCache (links : List (String × LinkField)) (inst : Inst)
    (key : String) : Except String Inst :=
  match alookup (linkKeys links) key with
  | none => .ok inst
  | some _ => .error attrErrMsg

/-- Item.__setitem__: clean the incoming value (field codecs are the
identity in this embedding), run _clear_link_cache — which raises
AttributeError for any link-embedded field, in which case the value is
never stored — and otherwise store the value in the data dictionary. -/
def setItem (links : List (String × LinkField)) (inst : Inst)
    (key : String) (v : Value) : Except String Inst :=
  match clearLinkCache links inst key with
  | .error e => .error e
  | .ok i => .ok { i with data := aset i.data key v }

/-- Item.__delitem__: run _clear_link_cache — which raises
AttributeError for any link-embedded field, in which case the field is
never deleted — and otherwise delete the field from the data
dictionary. -/
def delItem (links : List (String × LinkField)) (inst : Inst)
    (key : String) : Except String Inst :=
  match clearLinkCache links inst key with
  | .error e => .error e
  | .ok i => .ok { i with data := aerase i.data key }

/-- The target side of a link field as LinkFieldProperty reads it: a
resolved target type (its table's key fields and its default manager's
point lookup) or a reference that never resolved and offers no usable
manager. -/
inductive LinkTarget where
  | resolvedT (keyFields : List String) (getItem : List Value → TargetItem)
  | namedT (ref : String)

/-- The message of the TypeError raised by LinkFieldProperty.__get__
when the link's target has no usable manager: it formats the target
reference, field.item, with repr. -/
def unresolvedMsg (ref : String) : String :=
  "Item link unresolved or bad link argument: " ++ pyRepr ref

/-- LinkFieldProperty.__get__: serve the cache slot when set; otherwise
fail for an unresolved target, return None when an embedded key field
is missing, and else perform one point lookup against the target's
manager and populate the cache slot.  The result carries the value
read, the instance after the read, and how many lookups were done. -/
def linkGet (fieldName : String) (field : LinkField) (target : LinkTarget)
    (inst : Inst) : Except String (Option TargetItem × Inst × Nat) :=
  match alookup inst.caches fieldName with
  | some r => .ok (some r, inst, 0)
  | none =>
      match target with
      | .namedT ref => .error (unresolvedMsg ref)
      | .resolvedT _ getItem =>
          match lookupAll inst.data field.dbKey with
          | none => .ok (none, inst, 0)
          | some values =>
              let result := getItem values
              .ok (some result,
                { inst with caches := aset inst.caches fieldName result }, 1)

/-- The embedded-key writes of LinkFieldProperty.__set__, each passing
through Item.__setitem__ and stopping at its first AttributeError. -/
def setItems (links : List (String × LinkField)) :
    List (String × Value) → Inst → Except String Inst
  | [], inst => .ok inst
  | kv :: rest, inst =>
      match setItem links inst kv.1 kv.2 with
      | .error e => .error e
      | .ok i => setItems links rest i

/-- LinkFieldProperty.__set__: write the related item's primary-key
values into this instance's embedded key fields — each write passing
through Item.__setitem__, whose _clear_link_cache raises AttributeError
on these link-embedded fields — and, were the writes to succeed, place
the related item itself in the cache slot. -/
def linkSet (links : List (String × LinkField)) (fieldName : String)
    (field : LinkField) (inst : Inst) (related : TargetItem) :
    Except String Inst :=
  match setItems links (field.dbKey.zip related.pk) inst with
  | .error e => .error e
  | .ok filled =>
      .ok { filled with caches := aset filled.caches fieldName related }

/-- Schema of a single link over the embedded key field uid. -/
def w3Links : List (String × LinkField) :=
  [("user", LinkField.mk ["uid"])]

/-- An instance with the single link's cache slot populated. -/
def w3Inst : Inst :=
  Inst.mk [("uid", Value.num 1)] [("user", TargetItem.mk [Value.num 1])]

/-- An instance holding an embedded key value and no cached link. -/
def wInst : Inst :=
  Inst.mk [("uid", Value.num 123)] []

/-- A related item with a one-element primary key. -/
def wRelated : TargetItem :=
  TargetItem.mk [Value.num 7]

/- ------------------------------------------------------------------
   Type registry and pending-link table (fields.py contribute_to_class;
   the registry and drain of loading.py modelled from the spec).
   ------------------------------------------------------------------ -/

/-- What waits in the pending-link table for a target type: the link
field itself, or the reverse accessor to install on the target. -/
inductive PendingEntry where
  | linkEntry (lid : String)
  | reverseEntry (rname : String)
deriving DecidableEq, Repr

/-- A registered item type, by the attribute names defined on it (what
the reverse-accessor duplicate check consults). -/
structure TypeInfo where
  attrs : List String
deriving DecidableEq, Repr

/-- A link field's target attribute: the resolved type, or the
type-name string it was declared with while resolution is pending. -/
inductive TargetRef where
  | resolvedRef (typeName : String)
  | namedRef (typeName : String)
deriving DecidableEq, Repr

/-- The process-wide declaration state: the type registry
(loading.cache), the pending-link table (loading.pending_links, a
mapping from not-yet-seen type name to the entries awaiting it), and
each link field's current target attribute keyed by link id. -/
structure Registry where
  cache : List (String × TypeInfo)
  pendingLinks : List (String × List PendingEntry)
  linkTargets : List (String × TargetRef)
deriving DecidableEq, Repr

/-- Resolving one waiting entry against the now-known target type:
a link field binds its target (ItemLinkField.resolve_link); a reverse
accessor is installed on the target type, a fatal error if the target
already defines an attribute of that name
(AbstractReverseLinkFieldProperty.resolve_link). -/
def resolveEntry (tname : String) (reg : Registry) :
    PendingEntry → Except String Registry
  | .linkEntry lid =>
      .ok { reg with
        linkTargets := aset reg.linkTargets lid (.resolvedRef tname) }
  | .reverseEntry rname =>
      match alookup reg.cache tname with
      | none => .error ("KeyError: " ++ pyRepr tname)
      | some info =>
          if rname ∈ info.attrs then
            .error (tname ++ " already defines attribute " ++ rname)
          else
            .ok { reg with
              cache := aset reg.cache tname
                (TypeInfo.mk (info.attrs ++ [rname])) }

/-- Resolve a list of waiting entries in order, stopping at the first
fatal error. -/
def resolveEntries (tname : String) :
    List PendingEntry → Registry → Except String Registry
  | [], reg => .ok reg
  | e :: rest, reg =>
      match resolveEntry tname reg e with
      | .error msg => .error msg
      | .ok reg2 => resolveEntries tname rest reg2

/-- ItemLinkField.contribute_to_class, target-resolution part: when the
named target type is already registered, resolve the link (and its
reverse accessor, if requested) immediately; otherwise record both in
the pending-link table under the target's name and defer. -/
def declareLink (reg : Registry) (lid targetName : String)
    (reverseName : Option String) : Except String Registry :=
  let entries := PendingEntry.linkEntry lid ::
    (match reverseName with
     | none => []
     | some r => [PendingEntry.reverseEntry r])
  match alookup reg.cache targetName with
  | none =>
      .ok { reg with
        linkTargets := aset reg.linkTargets lid (.namedRef targetName),
        pendingLinks := aset reg.pendingLinks targetName
          ((alookup reg.pendingLinks targetName).getD [] ++ entries) }
  | some _ => resolveEntries targetName entries reg

/-- Modelled from the spec: faraday/loading.py is not among the source
files under src.  Declaring an item type registers it in the type
registry under its qualified name and then drains the pending-link
table's entry for that name, resolving every waiting entry against the
new type in the order the entries were registered. -/
def declareType (reg : Registry) (tname : String) (info : TypeInfo) :
    Except String Registry :=
  let reg1 := { reg with cache := aset reg.cache tname info }
  let waiting := (alookup reg1.pendingLinks tname).getD []
  let reg2 := { reg1 with pendingLinks := aerase reg1.pendingLinks tname }
  resolveEntries tname waiting reg2

/- ------------------------------------------------------------------
   Linked-item manager create (manager.py,
   AbstractLinkedItemManager.create).
   ------------------------------------------------------------------ -/

/-- The ValueError message raised on a conflicting linked-create key
value, as manager.py formats it. -/
def mismatchMsg (itemName coreKey : String) (value : Value)
    (linkName : String) (primaryKey : Value) : String :=
  "Invalid linked " ++ itemName ++ " argument (" ++ coreKey ++ "): "
    ++ pyReprValue value ++ " does not match " ++ linkName ++ " value "
    ++ pyReprValue primaryKey

/-- The core-key loop of AbstractLinkedItemManager.create: for each
core key, look up the parent's primary-key value (a KeyError if the
parent lacks it); a missing kwdata entry is autofilled from the parent,
a present one must equal the parent's value or the ValueError is
raised. -/
def fillCoreKeys (itemName linkName : String)
    (parentKeys : List (String × Value)) :
    List String → List (String × Value) →
      Except String (List (String × Value))
  | [], kw => .ok kw
  | ck :: rest, kw =>
      match alookup parentKeys ck with
      | none => .error ("KeyError: " ++ pyRepr ck)
      | some pk =>
          match alookup kw ck with
          | none =>
              fillCoreKeys itemName linkName parentKeys rest (aset kw ck pk)
          | some v =>
              if v = pk then fillCoreKeys itemName linkName parentKeys rest kw
              else .error (mismatchMsg itemName ck v linkName pk)

/-- The item a linked create returns: its saved data and its link-cache
slots, the parent (by its key dictionary) placed under the link's
name. -/
structure LinkedItem where
  data : List (String × Value)
  linkCache : List (String × List (String × Value))
deriving DecidableEq, Repr

/-- AbstractLinkedItemManager.create: fill or validate the core keys
against the parent, save the new item, and populate its link cache with
the parent instance. -/
def linkedCreate (itemName linkName : String) (coreKeys : List String)
    (parentKeys : List (String × Value))
    (kwdata : List (String × Value)) : Except String LinkedItem :=
  match fillCoreKeys itemName linkName parentKeys coreKeys kwdata with
  | .error e => .error e
  | .ok kw => .ok (LinkedItem.mk kw [(linkName, parentKeys)])

/- ------------------------------------------------------------------
   Instance equality and hash (item.py, Item.__eq__ / Item.__hash__).
   ------------------------------------------------------------------ -/

/-- A concrete item type: its name and its table's key fields in schema
order (hash key first). -/
structure ItemType where
  name : String
  keyFields : List String
deriving DecidableEq, Repr

/-- An item instance of a concrete type, with its data dictionary. -/
structure ItemInst where
  itype : ItemType
  data : List (String × Value)
deriving DecidableEq, Repr

/-- Item.get_keys: the table's key fields in order, each paired with
the instance's value for it. -/
def getKeys (it : ItemInst) : List (String × Option Value) :=
  it.itype.keyFields.map (fun k => (k, alookup it.data k))

/-- Item.pk: the tuple of get_keys values. -/
def itemPk (it : ItemInst) : List (Option Value) :=
  (getKeys it).map Prod.snd

/-- Item.__eq__: the other is of the same concrete type and the
primary-key tuples are equal. -/
def itemEq (a b : ItemInst) : Bool :=
  decide (a.itype.name = b.itype.name) && decide (itemPk a = itemPk b)

/-- A deterministic stand-in for the interpreter's hash of one value
(CPython's hash is opaque; any fixed function of the value models
it). -/
def valueHash : Value → Nat
  | .null => 0
  | .num n => 2 * n.natAbs + (if 0 ≤ n then 1 else 2)
  | .str s => s.foldl (fun a c => a * 31 + c.toNat) 17

/-- The stand-in hash of one key-name/value pair of get_keys. -/
def pairHash (p : String × Option Value) : Nat :=
  p.1.foldl (fun a c => a * 33 + c.toNat) 5 * 1000003
    + (match p.2 with
       | none => 7
       | some v => 2 * valueHash v + 11)

/-- Item.__hash__: the hash of the tuple of get_keys items, modelled as
a fixed deterministic combination of the pairs. -/
def itemHash (it : ItemInst) : Nat :=
  (getKeys it).foldl (fun a p => a * 1000000007 + pairHash p) 3

/-- The type both C9 witness instances share. -/
def w9Type : ItemType :=
  ItemType.mk "Token" ["uid", "token"]

/-- A C9 witness instance. -/
def w9a : ItemInst :=
  ItemInst.mk w9Type
    [("uid", Value.num 123), ("token", Value.str "abc"),
     ("extra", Value.num 1)]

/-- A second C9 witness instance: same primary key, a different value
in the non-key field extra. -/
def w9b : ItemInst :=
  ItemInst.mk w9Type
    [("uid", Value.num 123), ("token", Value.str "abc"),
     ("extra", Value.num 2)]

/- ------------------------------------------------------------------
   Partial save and null removal (item.py, Item.partial_save).
   ------------------------------------------------------------------ -/

/-- The loop of Item._remove_null_values over a snapshot of the data
items: for each null-like value, del self[key] — Item.__delitem__,
whose _clear_link_cache raises AttributeError when the field is
link-embedded — then pop the key from the original-data snapshot;
the first error aborts the loop. -/
def removeNulls (links : List (String × LinkField))
    (isNull : Value → Bool) :
    List (String × Value) → Inst → List (String × Value) →
      Except String (Inst × List (String × Value))
  | [], inst, orig => .ok (inst, orig)
  | kv :: rest, inst, orig =>
      if isNull kv.2 then
        match delItem links inst kv.1 with
        | .error e => .error e
        | .ok inst2 => removeNulls links isNull rest inst2 (aerase orig kv.1)
      else removeNulls links isNull rest inst orig

/-- Item._remove_null_values: run the removal loop over a snapshot of
the instance's current items. -/
def removeNullValues (links : List (String × LinkField))
    (isNull : Value → Bool) (inst : Inst)
    (origData : List (String × Value)) :
    Except String (Inst × List (String × Value)) :=
  removeNulls links isNull inst.data inst origData

/-- The collaborator's partial-save payload, per the expected-update
semantics the source's comment documents: a field present in the data
and differing from the original snapshot is put; a field of the
original snapshot missing from the data is a deletion directive. -/
def putsOf (data origData : List (String × Value)) :
    List (String × Value) :=
  data.filter (fun kv => !(decide (alookup origData kv.1 = some kv.2)))

/-- The deletion directives of the collaborator's partial save. -/
def deletesOf (data origData : List (String × Value)) : List String :=
  (origData.map Prod.fst).filter (fun k => decide (alookup data k = none))

/-- Item.partial_save: when the item needs saving (data differs from
the original snapshot), set the updated timestamp through
Item.__setitem__, run _remove_null_values — either step raising
AttributeError when it touches a link-embedded field — and hand the
result to the collaborator's partial save. -/
def partialSave (links : List (String × LinkField))
    (isNull : Value → Bool) (updatedField : String) (now : Value)
    (inst : Inst) (origData : List (String × Value)) :
    Except String (List (String × Value) × List String) :=
  if inst.data ≠ origData then
    match setItem links inst updatedField now with
    | .error e => .error e
    | .ok inst1 =>
        match removeNullValues links isNull inst1 origData with
        | .error e => .error e
        | .ok (inst2, orig2) =>
            .ok (putsOf inst2.data orig2, deletesOf inst2.data orig2)
  else .ok (putsOf inst.data origData, deletesOf inst.data origData)

/-- A concrete null test for the C10 witness: None and the empty string
are null-like. -/
def wIsNull : Value → Bool := fun v =>
  match v with
  | .null => true
  | .str s => decide (s = "")
  | .num _ => false

end Faraday

namespace Faraday

theorem alookup_aset_self {α : Type} (m : List (String × α)) (k : String)
    (v : α) : alookup (aset m k v) k = some v := by
  induction m with
  | nil => simp [aset, alookup]
  | cons p rest ih =>
      by_cases h : p.1 = k
      · simp [aset, alookup, h]
      · simp [aset, alookup, h, ih]

theorem alookup_aset_ne {α : Type} (m : List (String × α)) (k k' : String)
    (v : α) (h : k' ≠ k) : alookup (aset m k v) k' = alookup m k' := by
  have hk : ¬ k = k' := fun e => h e.symm
  induction m with
  | nil => simp [aset, alookup, hk]
  | cons p rest ih =>
      obtain ⟨a, b⟩ := p
      by_cases hp : a = k
      · subst hp
        simp [aset, alookup, hk]
      · simp [aset, alookup, hp, ih]

theorem alookup_aerase_self {α : Type} (m : List (String × α))
    (k : String) : alookup (aerase m k) k = none := by
  induction m with
  | nil => simp [aerase, alookup]
  | cons p rest ih =>
      obtain ⟨a, b⟩ := p
      by_cases h : a = k
      · simpa [aerase, h] using ih
      · simpa [aerase, alookup, h] using ih

theorem not_mem_of_alookup_none {α : Type} (m : List (String × α))
    (k : String) (h : alookup m k = none) : ∀ v, (k, v) ∉ m := by
  induction m with
  | nil => simp
  | cons p rest ih =>
      obtain ⟨a, b⟩ := p
      intro v hv
      by_cases hp : a = k
      · simp [alookup, hp] at h
      · simp only [alookup, hp, if_false, if_neg] at h
        rcases List.mem_cons.mp hv with he | hm
        · exact hp (congrArg Prod.fst he).symm
        · exact ih h v hm

theorem aerase_of_alookup_none {α : Type} (m : List (String × α))
    (k : String) (h : alookup m k = none) : aerase m k = m := by
  induction m with
  | nil => rfl
  | cons p rest ih =>
      obtain ⟨a, b⟩ := p
      by_cases hp : a = k
      · simp [alookup, hp] at h
      · simp only [alookup, hp, if_neg] at h
        simp [aerase, hp, ih h]

theorem aset_of_alookup_none {α : Type} (m : List (String × α))
    (k : String) (v : α) (h : alookup m k = none) :
    aset m k v = m ++ [(k, v)] := by
  induction m with
  | nil => rfl
  | cons p rest ih =>
      obtain ⟨a, b⟩ := p
      by_cases hp : a = k
      · simp [alookup, hp] at h
      · simp only [alookup, hp, if_neg] at h
        simp [aset, hp, ih h]

theorem aerase_aset_of_none {α : Type} (m : List (String × α))
    (k : String) (v : α) (h : alookup m k = none) :
    aerase (aset m k v) k = m := by
  induction m with
  | nil => simp [aset, aerase]
  | cons p rest ih =>
      obtain ⟨a, b⟩ := p
      by_cases hp : a = k
      · simp [alookup, hp] at h
      · simp only [alookup, hp, if_neg] at h
        simp [aset, aerase, hp, ih h]

theorem aset_aset {α : Type} (m : List (String × α)) (k : String)
    (v w : α) : aset (aset m k v) k w = aset m k w := by
  induction m with
  | nil => simp [aset]
  | cons p rest ih =>
      obtain ⟨a, b⟩ := p
      by_cases hp : a = k
      · simp [aset, hp]
      · simp [aset, hp, ih]

theorem results_eq_logical_of_none {α : Type} (s : LazySeq α)
    (h : s.iterable = none) : s.results = logicalSeq s := by
  simp [logicalSeq, h]

theorem consumeTo_logical {α : Type} (n : Nat) (s : LazySeq α) :
    logicalSeq (consumeTo n s) = logicalSeq s := by
  obtain ⟨rs, it⟩ := s
  cases it with
  | none => by_cases hn : n ≤ rs.length <;> simp [consumeTo, hn]
  | some l =>
      by_cases hn : n ≤ rs.length
      · simp [consumeTo, hn]
      · by_cases hl : l.length < n - rs.length
        · simp [consumeTo, hn, hl, logicalSeq]
        · simp [consumeTo, hn, hl, logicalSeq, List.take_append_drop]

theorem consumeTo_exhausted {α : Type} (n : Nat) (s : LazySeq α)
    (h : s.iterable = none) : consumeTo n s = s := by
  obtain ⟨rs, it⟩ := s
  cases it with
  | none => by_cases hn : n ≤ rs.length <;> simp [consumeTo, hn]
  | some l => simp at h

theorem consumeTo_results {α : Type} (n : Nat) (s : LazySeq α) :
    ∃ t, (consumeTo n s).results = s.results ++ t := by
  obtain ⟨rs, it⟩ := s
  cases it with
  | none =>
      by_cases hn : n ≤ rs.length
      · exact ⟨[], by simp [consumeTo, hn]⟩
      · exact ⟨[], by simp [consumeTo, hn]⟩
  | some l =>
      by_cases hn : n ≤ rs.length
      · exact ⟨[], by simp [consumeTo, hn]⟩
      · by_cases hl : l.length < n - rs.length
        · exact ⟨l, by simp [consumeTo, hn, hl]⟩
        · exact ⟨l.take (n - rs.length), by simp [consumeTo, hn, hl]⟩

theorem consumeAll_logical {α : Type} (s : LazySeq α) :
    logicalSeq (consumeAll s) = logicalSeq s := by
  simp [consumeAll, logicalSeq]

theorem consumeAll_exhausted {α : Type} (s : LazySeq α)
    (h : s.iterable = none) : consumeAll s = s := by
  obtain ⟨rs, it⟩ := s
  cases it with
  | none => simp [consumeAll]
  | some l => simp at h

theorem consumeAll_results {α : Type} (s : LazySeq α) :
    ∃ t, (consumeAll s).results = s.results ++ t :=
  ⟨s.iterable.getD [], rfl⟩

theorem consumeUntil_logical {α : Type} (p : α → Bool) (s : LazySeq α) :
    logicalSeq (consumeUntil p s) = logicalSeq s := by
  obtain ⟨rs, it⟩ := s
  by_cases ha : rs.any p
  · simp [consumeUntil, ha]
  · cases it with
    | none => simp [consumeUntil, ha]
    | some l =>
        have hsplit :
            l.takeWhile (fun a => !(p a)) ++ l.dropWhile (fun a => !(p a))
              = l := List.takeWhile_append_dropWhile _ _
        cases hd : l.dropWhile (fun a => !(p a)) with
        | nil =>
            rw [hd] at hsplit
            simp only [List.append_nil] at hsplit
            simp [consumeUntil, ha, hd, logicalSeq, hsplit]
        | cons x rest =>
            rw [hd] at hsplit
            have hgoal : logicalSeq (consumeUntil p ⟨rs, some l⟩)
                = rs ++ (l.takeWhile (fun a => !(p a)) ++ (x :: rest)) := by
              simp [consumeUntil, ha, hd, logicalSeq]
            rw [hgoal, hsplit]
            simp [logicalSeq]

theorem consumeUntil_exhausted {α : Type} (p : α → Bool) (s : LazySeq α)
    (h : s.iterable = none) : consumeUntil p s = s := by
  obtain ⟨rs, it⟩ := s
  cases it with
  | none => by_cases ha : rs.any p <;> simp [consumeUntil, ha]
  | some l => simp at h

theorem consumeUntil_results {α : Type} (p : α → Bool) (s : LazySeq α) :
    ∃ t, (consumeUntil p s).results = s.results ++ t := by
  obtain ⟨rs, it⟩ := s
  by_cases ha : rs.any p
  · exact ⟨[], by simp [consumeUntil, ha]⟩
  · cases it with
    | none => exact ⟨[], by simp [consumeUntil, ha]⟩
    | some l =>
        cases hd : l.dropWhile (fun a => !(p a)) with
        | nil =>
            exact ⟨l.takeWhile (fun a => !(p a)),
              by simp [consumeUntil, ha, hd]⟩
        | cons x rest =>
            exact ⟨l.takeWhile (fun a => !(p a)) ++ [x],
              by simp [consumeUntil, ha, hd]⟩

/-- C5: for every lazy sequence and every read operation, the logical
contents stay equal to the cached results followed by the remaining
source elements; when an operation leaves the iterable slot none, the
cache holds the complete original sequence; once the source is
exhausted every operation is the identity (served from cache, the
source is never re-invoked); and the cache only ever grows by
appending newly pulled elements. -/
theorem C5_lazy_sequence_invariant {α : Type} [DecidableEq α]
    (op : ReadOp α) (s : LazySeq α) :
    logicalSeq (applyOp op s) = logicalSeq s
    ∧ ((applyOp op s).iterable = none →
        (applyOp op s).results = logicalSeq s)
    ∧ (s.iterable = none → applyOp op s = s)
    ∧ ∃ t, (applyOp op s).results = s.results ++ t := by
  have hlog : logicalSeq (applyOp op s) = logicalSeq s := by
    cases op <;>
      simp [applyOp, consumeTo_logical, consumeAll_logical,
        consumeUntil_logical]
  refine ⟨hlog, ?_, ?_, ?_⟩
  · intro hnone
    rw [results_eq_logical_of_none (applyOp op s) hnone, hlog]
  · intro hnone
    cases op <;>
      simp [applyOp, consumeTo_exhausted _ _ hnone,
        consumeAll_exhausted _ hnone, consumeUntil_exhausted _ _ hnone]
  · cases op with
    | indexOp i => exact consumeTo_results _ _
    | boolOp => exact consumeTo_results _ _
    | lenOp => exact consumeAll_results _
    | countOp x => exact consumeAll_results _
    | containsOp x => exact consumeUntil_results _ _

/-- C8: concatenation with the lazy sequence on the left leaves it
untouched and yields a lazy (iterable still present, nothing cached)
sequence whose logical contents chain the left sequence with the right
operand; concatenation with the lazy sequence on the right fully
exhausts it (iterable slot becomes none, cache holds the whole
sequence) and returns the concrete list of the left operand followed by
the sequence's elements. -/
theorem C8_concat_semantics {α : Type} (s : LazySeq α) (xs : List α) :
    (ladd s xs).1 = s
    ∧ (ladd s xs).2.results = []
    ∧ (ladd s xs).2.iterable.isSome = true
    ∧ logicalSeq (ladd s xs).2 = logicalSeq s ++ xs
    ∧ (radd xs s).1 = xs ++ logicalSeq s
    ∧ (radd xs s).2.iterable = none
    ∧ (radd xs s).2.results = logicalSeq s := by
  refine ⟨rfl, rfl, rfl, ?_, rfl, rfl, rfl⟩
  simp [ladd, logicalSeq]

theorem alookup_mem {α : Type} (m : List (String × α)) (k : String)
    (v : α) (h : alookup m k = some v) : (k, v) ∈ m := by
  induction m with
  | nil => simp [alookup] at h
  | cons p rest ih =>
      obtain ⟨a, b⟩ := p
      by_cases hp : a = k
      · subst hp
        simp only [alookup, if_pos rfl] at h
        cases h
        exact List.mem_cons_self _ _
      · simp only [alookup, hp, if_neg] at h
        exact List.mem_cons_of_mem _ (ih h)

theorem schemaStep_hash (schema : List SchemaEntry) (f : FieldDecl)
    (hf : f.kind = .hash) :
    schemaStep schema f = .hashKey f.name :: schema := by
  simp [schemaStep, makeInternal, hf]

theorem schemaStep_range (schema : List SchemaEntry) (f : FieldDecl)
    (hf : f.kind = .range) :
    schemaStep schema f = schema ++ [.rangeKey f.name] := by
  simp [schemaStep, makeInternal, hf]

theorem schemaStep_plain (schema : List SchemaEntry) (f : FieldDecl)
    (hf : f.kind = .plain) : schemaStep schema f = schema := by
  simp [schemaStep, makeInternal, hf]

theorem assembleSchema_aux (keys : List FieldDecl) (hs rs : List String) :
    keys.foldl schemaStep
      (hs.map SchemaEntry.hashKey ++ rs.map SchemaEntry.rangeKey)
    = ((hashNames keys).reverse ++ hs).map SchemaEntry.hashKey
      ++ (rs ++ rangeNames keys).map SchemaEntry.rangeKey := by
  induction keys generalizing hs rs with
  | nil => simp [hashNames, rangeNames]
  | cons f rest ih =>
      rw [List.foldl_cons]
      cases hf : f.kind with
      | hash =>
          rw [schemaStep_hash _ _ hf]
          have step := ih (f.name :: hs) rs
          refine Eq.trans step ?_
          simp [hashNames, rangeNames, List.filterMap_cons, hf,
            List.append_assoc]
      | range =>
          rw [schemaStep_range _ _ hf]
          have harr :
              (hs.map SchemaEntry.hashKey ++ rs.map SchemaEntry.rangeKey)
                ++ [SchemaEntry.rangeKey f.name]
              = hs.map SchemaEntry.hashKey
                ++ (rs ++ [f.name]).map SchemaEntry.rangeKey := by
            simp
          rw [harr, ih hs (rs ++ [f.name])]
          simp [hashNames, rangeNames, List.filterMap_cons, hf,
            List.append_assoc]
      | plain =>
          rw [schemaStep_plain _ _ hf]
          refine Eq.trans (ih hs rs) ?_
          simp [hashNames, rangeNames, List.filterMap_cons, hf]

theorem assembleSchema_eq (keys : List FieldDecl) :
    assembleSchema keys
      = (hashNames keys).reverse.map SchemaEntry.hashKey
        ++ (rangeNames keys).map SchemaEntry.rangeKey := by
  have h := assembleSchema_aux keys [] []
  simpa [assembleSchema] using h

theorem validSchema_shape (hs rs : List String) :
    validSchema (hs.map SchemaEntry.hashKey ++ rs.map SchemaEntry.rangeKey)
      = true ↔ hs.length = 1 ∧ rs.length ≤ 1 := by
  rcases hs with _ | ⟨a, _ | ⟨b, hs'⟩⟩ <;>
    rcases rs with _ | ⟨r1, _ | ⟨r2, rs'⟩⟩ <;>
      simp [validSchema]

/-- C1: for every concrete item type declaration with exactly one hash
key and at most one range key, table declaration succeeds and the
assembled primary-key schema is exactly [hash key] or
[hash key, range key] with the hash key first; declaring zero or
two-plus hash keys, or more than one range key, is a fatal
declaration-time error. -/
theorem C1_primary_key_schema (keys : List FieldDecl) :
    ((hashNames keys).length = 1 ∧ (rangeNames keys).length ≤ 1 →
      ∃ hk, hashNames keys = [hk]
        ∧ declareTable keys = .ok (assembleSchema keys)
        ∧ (assembleSchema keys = [.hashKey hk]
           ∨ ∃ rk, rangeNames keys = [rk]
               ∧ assembleSchema keys = [.hashKey hk, .rangeKey rk]))
    ∧ ((hashNames keys).length ≠ 1 ∨ 2 ≤ (rangeNames keys).length →
      ∃ msg, declareTable keys = .error msg) := by
  have hform := assembleSchema_eq keys
  constructor
  · rintro ⟨h1, h2⟩
    rcases hhn : hashNames keys with _ | ⟨a, hs'⟩
    · rw [hhn] at h1
      simp at h1
    · rcases hs' with _ | ⟨b, hs''⟩
      · rcases hrn : rangeNames keys with _ | ⟨r, rs'⟩
        · rw [hhn, hrn] at hform
          simp at hform
          exact ⟨a, rfl, by simp [declareTable, hform, validSchema],
            Or.inl hform⟩
        · rcases rs' with _ | ⟨r2, rs''⟩
          · rw [hhn, hrn] at hform
            simp at hform
            exact ⟨a, rfl, by simp [declareTable, hform, validSchema],
              Or.inr ⟨r, rfl, hform⟩⟩
          · rw [hrn] at h2
            simp at h2
      · rw [hhn] at h1
        simp at h1
  · intro h
    have hv : validSchema (assembleSchema keys) = false := by
      rw [hform]
      cases hb : validSchema ((hashNames keys).reverse.map SchemaEntry.hashKey
          ++ (rangeNames keys).map SchemaEntry.rangeKey) with
      | false => rfl
      | true =>
          have hc := (validSchema_shape _ _).mp hb
          rw [List.length_reverse] at hc
          rcases h with h | h
          · exact absurd hc.1 h
          · omega
    exact ⟨"Table schema must be [HashKey] or [HashKey, RangeKey]",
      by simp [declareTable, hv]⟩

theorem linkKeys_inner (db : List String) (ln : String)
    (acc : List (String × String)) (key : String) :
    alookup (db.foldl (fun a k => aset a k ln) acc) key
      = if key ∈ db then some ln else alookup acc key := by
  induction db generalizing acc with
  | nil => simp
  | cons d ds ih =>
      rw [List.foldl_cons, ih]
      by_cases hk : key ∈ ds
      · simp [hk, List.mem_cons]
      · by_cases hd : key = d
        · subst hd
          simp [hk, alookup_aset_self, List.mem_cons]
        · simp [hk, hd, List.mem_cons, alookup_aset_ne _ _ _ _ hd]

theorem linkKeys_lastOwner_aux (links : List (String × LinkField))
    (acc : List (String × String)) (key : String) :
    alookup
      (links.foldl
        (fun a lk => lk.2.dbKey.foldl (fun a2 k => aset a2 k lk.1) a) acc)
      key
      = (lastOwner links key).or (alookup acc key) := by
  induction links generalizing acc with
  | nil => simp [lastOwner]
  | cons p rest ih =>
      rw [List.foldl_cons, ih]
      cases hlo : lastOwner rest key with
      | some l => simp [lastOwner, hlo]
      | none =>
          simp only [lastOwner, hlo, Option.none_or, linkKeys_inner]
          by_cases hk : key ∈ p.2.dbKey <;> simp [hk]

theorem linkKeys_lastOwner (links : List (String × LinkField))
    (key : String) :
    alookup (linkKeys links) key = lastOwner links key := by
  have h := linkKeys_lastOwner_aux links [] key
  simpa [linkKeys, alookup] using h

/-- C3: the claimed invalidation does not exist in the source as
staged: Item._clear_link_cache fetches the LinkFieldProperty descriptor
from the class and calls cache_clear on it, a method the descriptor
does not define (only cache_get and cache_set are), so writing or
deleting a field owned by link_keys raises AttributeError — the value
is never stored, the field never deleted, and no cache slot is
cleared.  Evaluated at the failing input: the field uid, embedded by
the link user, on an instance whose cache slot is populated. -/
theorem C3_set_del_raise :
    "uid" ∈ (LinkField.mk ["uid"]).dbKey
    ∧ ("user", LinkField.mk ["uid"]) ∈ w3Links
    ∧ alookup (linkKeys w3Links) "uid" = some "user"
    ∧ setItem w3Links w3Inst "uid" (Value.num 2) = .error attrErrMsg
    ∧ delItem w3Links w3Inst "uid" = .error attrErrMsg :=
  ⟨by decide, by decide, by decide, rfl, rfl⟩

/-- C4: the claimed assign-then-read behaviour does not exist in the
source as staged: LinkFieldProperty.__set__'s first embedded-key write
goes through Item.__setitem__, whose _clear_link_cache raises
AttributeError (LinkFieldProperty has no cache_clear), so the
assignment neither copies the primary-key values nor populates the
cache slot.  Evaluated at the failing input: assigning a related item
to the link user on an instance whose cache slot is empty. -/
theorem C4_link_assignment_raises :
    alookup wInst.caches "user" = none
    ∧ linkSet w3Links "user" (LinkField.mk ["uid"]) wInst wRelated
        = .error attrErrMsg :=
  ⟨by decide, rfl⟩

/-- C7 counterexample: reading the link field named owner, whose target
reference Person never resolved and whose cache slot is empty, raises
the unresolved-link TypeError — but the message names the target
reference, not the offending field: the field name owner does not occur
in it anywhere, so the claim as stated fails at this input. -/
theorem C7_counterexample :
    linkGet "owner" (LinkField.mk ["pid"]) (.namedT "Person")
        (Inst.mk [("pid", Value.num 1)] [])
      = .error "Item link unresolved or bad link argument: 'Person'"
    ∧ ¬ ("owner".toList <:+:
        "Item link unresolved or bad link argument: 'Person'".toList) := by
  constructor
  · rfl
  · decide

/-- C7 (amended): reading a link field whose target never resolved or
offers no usable manager, with the cache slot empty, fails on the read
itself with the unresolved-link TypeError — never converted to a
default value — and the message names the link's declared target
reference (its repr occurs in the message), not the field name. -/
theorem C7_unresolved_link_error (fieldName : String) (field : LinkField)
    (ref : String) (inst : Inst)
    (hmiss : alookup inst.caches fieldName = none) :
    linkGet fieldName field (.namedT ref) inst = .error (unresolvedMsg ref)
    ∧ (pyRepr ref).toList <:+: (unresolvedMsg ref).toList := by
  constructor
  · simp [linkGet, hmiss]
  · refine ⟨"Item link unresolved or bad link argument: ".toList, [], ?_⟩
    simp [unresolvedMsg, String.toList]

theorem C7_unresolved_link_error_witness :
    linkGet "user" (LinkField.mk ["uid"]) (.namedT "User") (Inst.mk [] [])
      = .error (unresolvedMsg "User")
    ∧ (pyRepr "User").toList <:+: (unresolvedMsg "User").toList :=
  C7_unresolved_link_error "user" (LinkField.mk ["uid"]) "User"
    (Inst.mk [] []) (by decide)

/-- C2: declaring a link (with a requested reverse accessor) whose
target type is not yet registered records the link and its reverse in
the pending-link table under the target's name, with the link's target
attribute left as the name string; when a type of that name is later
declared, the waiting entries are drained in registration order and
resolved against it, the pending entry disappears, the link's target
attribute becomes the resolved type, the reverse accessor lands on the
target type — and the final declaration state is exactly the one
reached by declaring the two in the opposite order.  The drain of
loading.pending_links is modelled from the spec, loading.py being
absent from src. -/
theorem C2_deferred_link_resolution (reg : Registry)
    (lid targetName rname : String) (info : TypeInfo)
    (hc : alookup reg.cache targetName = none)
    (hp : alookup reg.pendingLinks targetName = none)
    (hr : rname ∉ info.attrs) :
    ∃ reg1 regFinal regB,
      declareLink reg lid targetName (some rname) = .ok reg1
      ∧ alookup reg1.pendingLinks targetName
          = some [PendingEntry.linkEntry lid, PendingEntry.reverseEntry rname]
      ∧ alookup reg1.linkTargets lid = some (.namedRef targetName)
      ∧ declareType reg1 targetName info = .ok regFinal
      ∧ declareType reg targetName info = .ok regB
      ∧ declareLink regB lid targetName (some rname) = .ok regFinal
      ∧ alookup regFinal.linkTargets lid = some (.resolvedRef targetName)
      ∧ alookup regFinal.pendingLinks targetName = none
      ∧ alookup regFinal.cache targetName
          = some (TypeInfo.mk (info.attrs ++ [rname])) := by
  refine ⟨{ reg with
      linkTargets := aset reg.linkTargets lid (.namedRef targetName),
      pendingLinks := aset reg.pendingLinks targetName
        [PendingEntry.linkEntry lid, PendingEntry.reverseEntry rname] },
    { cache := aset reg.cache targetName
        (TypeInfo.mk (info.attrs ++ [rname])),
      pendingLinks := reg.pendingLinks,
      linkTargets := aset reg.linkTargets lid (.resolvedRef targetName) },
    { cache := aset reg.cache targetName info,
      pendingLinks := reg.pendingLinks,
      linkTargets := reg.linkTargets },
    ?_, ?_, ?_, ?_, ?_, ?_, ?_, ?_, ?_⟩
  · simp [declareLink, hc, hp]
  · exact alookup_aset_self _ _ _
  · exact alookup_aset_self _ _ _
  · simp [declareType, alookup_aset_self, aerase_aset_of_none _ _ _ hp,
      resolveEntries, resolveEntry, aset_aset, hr]
  · simp [declareType, hp, aerase_of_alookup_none _ _ hp, resolveEntries]
  · simp [declareLink, alookup_aset_self, resolveEntries, resolveEntry,
      hr, aset_aset]
  · exact alookup_aset_self _ _ _
  · exact hp
  · exact alookup_aset_self _ _ _

theorem C2_deferred_link_resolution_witness :
    ∃ reg1 regFinal regB,
      declareLink (Registry.mk [] [] []) "token.user" "User"
          (some "tokens") = .ok reg1
      ∧ alookup reg1.pendingLinks "User"
          = some [PendingEntry.linkEntry "token.user",
              PendingEntry.reverseEntry "tokens"]
      ∧ alookup reg1.linkTargets "token.user" = some (.namedRef "User")
      ∧ declareType reg1 "User" (TypeInfo.mk ["items"]) = .ok regFinal
      ∧ declareType (Registry.mk [] [] []) "User" (TypeInfo.mk ["items"])
          = .ok regB
      ∧ declareLink regB "token.user" "User" (some "tokens") = .ok regFinal
      ∧ alookup regFinal.linkTargets "token.user"
          = some (.resolvedRef "User")
      ∧ alookup regFinal.pendingLinks "User" = none
      ∧ alookup regFinal.cache "User"
          = some (TypeInfo.mk (["items"] ++ ["tokens"])) :=
  C2_deferred_link_resolution (Registry.mk [] [] []) "token.user" "User"
    "tokens" (TypeInfo.mk ["items"]) (by decide) (by decide) (by decide)

theorem fillCoreKeys_untouched (itemName linkName : String)
    (parentKeys : List (String × Value)) :
    ∀ (cks : List String) (kw kw' : List (String × Value)),
      fillCoreKeys itemName linkName parentKeys cks kw = .ok kw' →
      ∀ k, k ∉ cks → alookup kw' k = alookup kw k := by
  intro cks
  induction cks with
  | nil =>
      intro kw kw' h k _
      simp only [fillCoreKeys, Except.ok.injEq] at h
      rw [h]
  | cons ck rest ih =>
      intro kw kw' h k hk
      simp only [List.mem_cons] at hk
      push_neg at hk
      cases hpk : alookup parentKeys ck with
      | none => simp [fillCoreKeys, hpk] at h
      | some pk =>
          cases hkw : alookup kw ck with
          | none =>
              simp only [fillCoreKeys, hpk, hkw] at h
              rw [ih _ _ h k hk.2]
              exact alookup_aset_ne _ _ _ _ hk.1
          | some v =>
              by_cases hv : v = pk
              · simp only [fillCoreKeys, hpk, hkw, hv, if_pos rfl] at h
                exact ih _ _ h k hk.2
              · simp [fillCoreKeys, hpk, hkw, hv] at h

theorem fillCoreKeys_fills (itemName linkName : String)
    (parentKeys : List (String × Value)) :
    ∀ (cks : List String) (kw : List (String × Value)),
      (∀ ck ∈ cks, (alookup parentKeys ck).isSome) →
      (∀ ck ∈ cks, alookup kw ck = none
        ∨ alookup kw ck = alookup parentKeys ck) →
      ∃ kw', fillCoreKeys itemName linkName parentKeys cks kw = .ok kw'
        ∧ ∀ ck ∈ cks, alookup kw' ck = alookup parentKeys ck := by
  intro cks
  induction cks with
  | nil =>
      intro kw _ _
      exact ⟨kw, rfl, by simp⟩
  | cons ck rest ih =>
      intro kw hcov hinit
      obtain ⟨pk, hpk⟩ : ∃ pk, alookup parentKeys ck = some pk := by
        have := hcov ck (List.mem_cons_self _ _)
        cases hx : alookup parentKeys ck
        · rw [hx] at this
          simp at this
        · exact ⟨_, rfl⟩
      have hrest_cov : ∀ c ∈ rest, (alookup parentKeys c).isSome :=
        fun c hc => hcov c (List.mem_cons_of_mem _ hc)
      rcases hinit ck (List.mem_cons_self _ _) with hnone | hsame
      · have hrest_init : ∀ c ∈ rest,
            alookup (aset kw ck pk) c = none
            ∨ alookup (aset kw ck pk) c = alookup parentKeys c := by
          intro c hc
          by_cases hcc : c = ck
          · subst hcc
            right
            rw [alookup_aset_self, hpk]
          · rw [alookup_aset_ne _ _ _ _ hcc]
            exact hinit c (List.mem_cons_of_mem _ hc)
        obtain ⟨kw', hfill, hprop⟩ := ih (aset kw ck pk) hrest_cov hrest_init
        refine ⟨kw', by simp [fillCoreKeys, hpk, hnone, hfill], ?_⟩
        intro c hc
        rcases List.mem_cons.mp hc with he | hm
        · subst he
          by_cases hcr : c ∈ rest
          · exact hprop c hcr
          · rw [fillCoreKeys_untouched itemName linkName parentKeys rest
                _ _ hfill c hcr, alookup_aset_self, hpk]
        · exact hprop c hm
      · rw [hpk] at hsame
        obtain ⟨kw', hfill, hprop⟩ := ih kw hrest_cov
          (fun c hc => hinit c (List.mem_cons_of_mem _ hc))
        refine ⟨kw', by simp [fillCoreKeys, hpk, hsame, hfill], ?_⟩
        intro c hc
        rcases List.mem_cons.mp hc with he | hm
        · subst he
          by_cases hcr : c ∈ rest
          · exact hprop c hcr
          · rw [fillCoreKeys_untouched itemName linkName parentKeys rest
                _ _ hfill c hcr, hsame, hpk]
        · exact hprop c hm

theorem fillCoreKeys_conflict (itemName linkName : String)
    (parentKeys : List (String × Value)) :
    ∀ (cks : List String) (kw : List (String × Value)),
      (∀ ck ∈ cks, (alookup parentKeys ck).isSome) →
      (∃ ck ∈ cks, ∃ v pk, alookup kw ck = some v
        ∧ alookup parentKeys ck = some pk ∧ v ≠ pk) →
      ∃ ck v pk, ck ∈ cks ∧ alookup kw ck = some v
        ∧ alookup parentKeys ck = some pk ∧ v ≠ pk
        ∧ fillCoreKeys itemName linkName parentKeys cks kw
            = .error (mismatchMsg itemName ck v linkName pk) := by
  intro cks
  induction cks with
  | nil =>
      intro kw _ hex
      simp at hex
  | cons ck rest ih =>
      intro kw hcov hex
      obtain ⟨pk0, hpk0⟩ : ∃ p, alookup parentKeys ck = some p := by
        have := hcov ck (List.mem_cons_self _ _)
        cases hx : alookup parentKeys ck
        · rw [hx] at this
          simp at this
        · exact ⟨_, rfl⟩
      have hrest_cov : ∀ c ∈ rest, (alookup parentKeys c).isSome :=
        fun c hc => hcov c (List.mem_cons_of_mem _ hc)
      cases hkw : alookup kw ck with
      | some v0 =>
          by_cases hv : v0 = pk0
          · have hex' : ∃ c ∈ rest, ∃ v pk, alookup kw c = some v
                ∧ alookup parentKeys c = some pk ∧ v ≠ pk := by
              obtain ⟨c, hc, v, pk, h1, h2, h3⟩ := hex
              rcases List.mem_cons.mp hc with he | hm
              · subst he
                rw [hkw] at h1
                injection h1 with e1
                rw [hpk0] at h2
                injection h2 with e2
                exact absurd (by rw [← e1, ← e2]; exact hv) h3
              · exact ⟨c, hm, v, pk, h1, h2, h3⟩
            obtain ⟨c, v, pk, hm, h1, h2, h3, herr⟩ := ih kw hrest_cov hex'
            exact ⟨c, v, pk, List.mem_cons_of_mem _ hm, h1, h2, h3,
              by simp [fillCoreKeys, hpk0, hkw, hv, herr]⟩
          · exact ⟨ck, v0, pk0, List.mem_cons_self _ _, hkw, hpk0, hv,
              by simp [fillCoreKeys, hpk0, hkw, hv]⟩
      | none =>
          have hex' : ∃ c ∈ rest, ∃ v pk,
              alookup (aset kw ck pk0) c = some v
              ∧ alookup parentKeys c = some pk ∧ v ≠ pk := by
            obtain ⟨c, hc, v, pk, h1, h2, h3⟩ := hex
            rcases List.mem_cons.mp hc with he | hm
            · subst he
              rw [hkw] at h1
              simp at h1
            · have hcc : c ≠ ck := by
                intro e
                subst e
                rw [hkw] at h1
                simp at h1
              exact ⟨c, hm, v, pk,
                by rw [alookup_aset_ne _ _ _ _ hcc]; exact h1, h2, h3⟩
          obtain ⟨c, v, pk, hm, h1, h2, h3, herr⟩ :=
            ih (aset kw ck pk0) hrest_cov hex'
          have hcc : c ≠ ck := by
            intro e
            subst e
            rw [alookup_aset_self] at h1
            injection h1 with e1
            rw [hpk0] at h2
            injection h2 with e2
            exact h3 (by rw [← e1]; exact e2)
          refine ⟨c, v, pk, List.mem_cons_of_mem _ hm, ?_, h2, h3,
            by simp [fillCoreKeys, hpk0, hkw, herr]⟩
          rw [← alookup_aset_ne kw ck c pk0 hcc]
          exact h1

/-- C6: creating a related item through a one-to-many reverse manager
with no embedded-key values supplied auto-fills every core key from the
parent's primary-key values and populates the new item's link cache
with the parent; supplying a value for a core key that differs from the
parent's actual key value raises the ValueError whose message names the
mismatched field, the conflicting value, and the parent's actual
value. -/
theorem C6_linked_manager_create (itemName linkName : String)
    (coreKeys : List String) (parentKeys kwdata : List (String × Value))
    (hcov : ∀ ck ∈ coreKeys, (alookup parentKeys ck).isSome) :
    ((∀ ck ∈ coreKeys, alookup kwdata ck = none) →
      ∃ item, linkedCreate itemName linkName coreKeys parentKeys kwdata
          = .ok item
        ∧ (∀ ck ∈ coreKeys, alookup item.data ck = alookup parentKeys ck)
        ∧ alookup item.linkCache linkName = some parentKeys)
    ∧ ((∃ ck ∈ coreKeys, ∃ v pk, alookup kwdata ck = some v
          ∧ alookup parentKeys ck = some pk ∧ v ≠ pk) →
      ∃ ck v pk, ck ∈ coreKeys ∧ alookup kwdata ck = some v
        ∧ alookup parentKeys ck = some pk ∧ v ≠ pk
        ∧ linkedCreate itemName linkName coreKeys parentKeys kwdata
            = .error (mismatchMsg itemName ck v linkName pk)) := by
  constructor
  · intro hnone
    obtain ⟨kw', hfill, hprop⟩ := fillCoreKeys_fills itemName linkName
      parentKeys coreKeys kwdata hcov (fun ck hc => Or.inl (hnone ck hc))
    exact ⟨LinkedItem.mk kw' [(linkName, parentKeys)],
      by simp [linkedCreate, hfill], hprop, by simp [alookup]⟩
  · intro hex
    obtain ⟨ck, v, pk, hm, h1, h2, h3, herr⟩ := fillCoreKeys_conflict
      itemName linkName parentKeys coreKeys kwdata hcov hex
    exact ⟨ck, v, pk, hm, h1, h2, h3, by simp [linkedCreate, herr]⟩

theorem C6_linked_manager_create_witness :
    ((∀ ck ∈ ["uid"], alookup [("token", Value.str "abc")] ck = none) →
      ∃ item, linkedCreate "Token" "user" ["uid"]
          [("uid", Value.num 123)] [("token", Value.str "abc")] = .ok item
        ∧ (∀ ck ∈ ["uid"], alookup item.data ck
            = alookup [("uid", Value.num 123)] ck)
        ∧ alookup item.linkCache "user" = some [("uid", Value.num 123)])
    ∧ ((∃ ck ∈ ["uid"], ∃ v pk,
          alookup [("token", Value.str "abc")] ck = some v
          ∧ alookup [("uid", Value.num 123)] ck = some pk ∧ v ≠ pk) →
      ∃ ck v pk, ck ∈ ["uid"]
        ∧ alookup [("token", Value.str "abc")] ck = some v
        ∧ alookup [("uid", Value.num 123)] ck = some pk ∧ v ≠ pk
        ∧ linkedCreate "Token" "user" ["uid"] [("uid", Value.num 123)]
            [("token", Value.str "abc")]
            = .error (mismatchMsg "Token" ck v "user" pk)) :=
  C6_linked_manager_create "Token" "user" ["uid"] [("uid", Value.num 123)]
    [("token", Value.str "abc")] (by decide)

theorem pairs_eq_of_proj_eq {α β : Type} :
    ∀ (l₁ l₂ : List (α × β)), l₁.map Prod.fst = l₂.map Prod.fst →
      l₁.map Prod.snd = l₂.map Prod.snd → l₁ = l₂ := by
  intro l₁
  induction l₁ with
  | nil =>
      intro l₂ h1 _
      cases l₂ with
      | nil => rfl
      | cons q qs => simp at h1
  | cons p ps ih =>
      intro l₂ h1 h2
      cases l₂ with
      | nil => simp at h1
      | cons q qs =>
          simp only [List.map_cons, List.cons.injEq] at h1 h2
          have hpq : p = q := Prod.ext h1.1 h2.1
          rw [hpq, ih qs h1.2 h2.2]

theorem getKeys_fst (it : ItemInst) :
    (getKeys it).map Prod.fst = it.itype.keyFields := by
  simp only [getKeys, List.map_map]
  have : (Prod.fst ∘ fun k => (k, alookup it.data k)) = id := by
    funext k
    rfl
  rw [this, List.map_id]

/-- C9: for any two instances of the same concrete item type whose
primary-key tuples are equal, equality holds and the hashes coincide,
whatever their other field values. -/
theorem C9_eq_hash_by_pk (a b : ItemInst)
    (htype : a.itype = b.itype) (hpk : itemPk a = itemPk b) :
    itemEq a b = true ∧ itemHash a = itemHash b := by
  have hkeys : getKeys a = getKeys b := by
    apply pairs_eq_of_proj_eq
    · rw [getKeys_fst, getKeys_fst, htype]
    · exact hpk
  constructor
  · simp [itemEq, htype, hpk]
  · simp [itemHash, hkeys]

theorem C9_eq_hash_by_pk_witness :
    itemEq w9a w9b = true ∧ itemHash w9a = itemHash w9b :=
  C9_eq_hash_by_pk w9a w9b (by decide) (by decide)

/-- C10: the claimed null removal does not survive the source's error
path: _remove_null_values deletes each null-like field with
del self[key], which routes through Item.__delitem__ and
_clear_link_cache — raising AttributeError when the null-valued field
is embedded by a link — so partial_save crashes instead of removing
the field and saving.  Evaluated at the failing input: an item that
needs saving whose field uid, embedded by the link user, holds a
null-like value. -/
theorem C10_partial_save_raises :
    wIsNull Value.null = true
    ∧ alookup (linkKeys w3Links) "uid" = some "user"
    ∧ partialSave w3Links wIsNull "updated" (Value.num 99)
        (Inst.mk [("uid", Value.null), ("token", Value.str "abc")] [])
        [("uid", Value.num 5), ("token", Value.str "abc")]
      = .error attrErrMsg :=
  ⟨by decide, by decide, rfl⟩

end Faraday
